import Mathlib

/-!
Formal model of `managed_components/espressif__gmf_io/mk_flash_embed_tone.py`.

The script scans a directory for audio files (`get_file_info`), sanitizes
filenames into C identifiers (`sanitize_filename`), synthesizes a C header and
a CMake manifest (`gen_h_file`), and writes both to disk (`write_file`,
driven by `main`).

Modelling conventions:
- Filesystem effects are made explicit: the directory listing is a
  `List String`, `os.path.getsize` is a function `String → Option Nat`
  (`none` models a raised `OSError`), and the writable filesystem is a map
  `String → Option String` from paths to contents.
- A Python function that can raise on some input is modelled as
  `Option`-valued: `none` means the call raises (so the exception propagates
  to the caller, as in Python).
- Python sorts strings in ascending code-point (lexicographic) order;
  `list.sort` is a stable sort, modelled here by insertion sort over the
  code-point order `strLe`.
- `str.upper` / `str.lower` / `str.isdigit` are modelled by the ASCII
  `Char.toUpper` / `Char.toLower` / `Char.isDigit`; all filenames in the
  claims are ASCII.
-/

namespace EmbedTone

/-! ### Code-point lexicographic order on strings (Python string sort) -/

/-- Lexicographic comparison of char lists by code point, as Python compares
strings. -/
def lexLe : List Char → List Char → Bool
  | [], _ => true
  | _ :: _, [] => false
  | a :: as, b :: bs =>
    if a.toNat < b.toNat then true
    else if b.toNat < a.toNat then false
    else lexLe as bs

/-- `a ≤ b` in Python string order. -/
def strLe (a b : String) : Bool := lexLe a.data b.data

/-- Stable insertion of a string into a list, keeping `strLe`-sorted lists
sorted. -/
def insertSorted (x : String) : List String → List String
  | [] => [x]
  | y :: ys => if strLe x y then x :: y :: ys else y :: insertSorted x ys

/-- Model of Python `list.sort()` on strings: a stable sort by `strLe`. -/
def sortStrings : List String → List String
  | [] => []
  | x :: xs => insertSorted x (sortStrings xs)

/-! ### NameSanitizer: `sanitize_filename` (source lines 54-60) -/

/-- The per-character replacement performed by the chained
`replace('-', '_').replace('.', '_').replace(' ', '_')`: each of the three
separator characters becomes an underscore. -/
def sepToUnderscore (c : Char) : Char :=
  if c = '-' ∨ c = '.' ∨ c = ' ' then '_' else c

/-- The chained single-character `str.replace` calls of line 56. -/
def replaceSeps (s : String) : String := String.mk (s.data.map sepToUnderscore)

/-- Whether a character list starts with a decimal digit. -/
def headIsDigit : List Char → Bool
  | [] => false
  | c :: _ => c.isDigit

/-- Whether a string starts with a decimal digit (`s[0].isdigit()` for
non-empty `s`). -/
def startsWithDigit (s : String) : Bool := headIsDigit s.data

/-- `sanitize_filename` (lines 54-60). On the empty string the source raises
`IndexError` at `sanitized[0]`, modelled by `none`. -/
def sanitize_filename (filename : String) : Option String :=
  let sanitized := replaceSeps filename
  match sanitized.data with
  | [] => none
  | c :: _ => some (if c.isDigit then "tone_" ++ sanitized else sanitized)

/-! ### FileScanner: `get_file_info` (source lines 62-82) -/

def SUPPORTED_EXTENSIONS : List String := [".wav", ".mp3", ".aac", ".m4a"]

/-- ASCII model of Python `str.lower`. -/
def toLowerStr (s : String) : String := String.mk (s.data.map Char.toLower)

/-- Suffix test on strings, modelling `str.endswith` for one pattern. -/
def strEndsWith (s e : String) : Bool :=
  e.data.length ≤ s.data.length &&
    (s.data.drop (s.data.length - e.data.length) == e.data)

/-- The filter of line 64: `x.lower().endswith(SUPPORTED_EXTENSIONS)`. -/
def isSupported (x : String) : Bool :=
  SUPPORTED_EXTENSIONS.any (fun e => strEndsWith (toLowerStr x) e)

/-- `get_file_info` (lines 62-82): filter the listing to supported
extensions, sort, return `[]` when nothing matched, otherwise keep each file
whose size read succeeds, pairing it with its size. Skipped stat failures
(the `except OSError: continue` of lines 76-78) are the dropped `none`s of
the `filterMap`. The Python `dict` preserves the sorted insertion order, so
a list of pairs is a faithful image. -/
def get_file_info (listing : List String) (getsize : String → Option Nat) :
    List (String × Nat) :=
  let file_list := sortStrings (listing.filter isSupported)
  if file_list.isEmpty then []
  else file_list.filterMap
    (fun filename => (getsize filename).map (fun size => (filename, size)))

/-! ### CodeSynthesizer and ManifestSynthesizer: `gen_h_file` (lines 84-163) -/

/-- One element of `tone_entries` (lines 121-126). -/
def tone_entry (idx : Nat) (sanitized : String) (size : Nat) : String :=
  "    [" ++ toString idx ++ "] = \x7b\n        .address = " ++ sanitized ++
    ",\n        .size    = " ++ toString size ++ ",\n    \x7d,"

/-- ASCII model of Python `str.upper`. -/
def toUpperStr (s : String) : String := String.mk (s.data.map Char.toUpper)

/-- One element of `enum_entries` (lines 128-130). -/
def enum_entry (idx : Nat) (sanitized : String) : String :=
  "    ESP_EMBED_TONE_" ++ toUpperStr sanitized ++ " = " ++ toString idx ++ ","

/-- `filename.replace('-', '_')` of line 132. -/
def replaceHyphens (s : String) : String :=
  String.mk (s.data.map (fun c => if c = '-' then '_' else c))

/-- One element of `url_entries` (lines 131-135). -/
def url_entry (idx : Nat) (filename : String) : String :=
  "    \"embed://tone/" ++ toString idx ++ "_" ++ replaceHyphens filename ++ "\","

/-- The external-reference block appended to `h_file` per entry
(lines 111-117). -/
def decl_block (filename sanitized : String) : List String :=
  ["/**",
   " * @brief External reference to embedded tone data: " ++ filename,
   " */",
   "extern const uint8_t " ++ sanitized ++ "[] asm(\"_binary_" ++ sanitized ++
     "_start\");",
   ""]

/-- Effectful map over a list: the image of a Python `for` loop whose body
may raise, in which case nothing is produced. -/
def optMap {α β : Type} (f : α → Option β) : List α → Option (List β)
  | [] => some []
  | a :: l =>
    match f a, optMap f l with
    | some b, some bs => some (b :: bs)
    | _, _ => none

/-- The `tone_entries` list accumulated by the loop of line 108, one entry
per `(filename, size)` pair at its enumeration index. `none` when some
filename is empty (the loop would raise inside `sanitize_filename`). -/
def tone_entries (fi : List (String × Nat)) : Option (List String) :=
  optMap
    (fun p => (sanitize_filename p.2.1).map (fun s => tone_entry p.1 s p.2.2))
    fi.enum

/-- The `enum_entries` list accumulated by the loop of line 108. -/
def enum_entries (fi : List (String × Nat)) : Option (List String) :=
  optMap (fun p => (sanitize_filename p.2.1).map (fun s => enum_entry p.1 s))
    fi.enum

/-- The `url_entries` list accumulated by the loop of line 108 (no
sanitization: only hyphens are replaced). -/
def url_entries (fi : List (String × Nat)) : List String :=
  fi.enum.map (fun p => url_entry p.1 p.2.1)

/-- The sentinel member `ESP_EMBED_TONE_URL_MAX = len(file_info)` of
line 150. -/
def sentinel_line (n : Nat) : String :=
  "    ESP_EMBED_TONE_URL_MAX = " ++ toString n

/-- The complete body of the generated `enum esp_embed_tone_index`:
the per-entry members followed by the sentinel (lines 148-151). -/
def enum_block (fi : List (String × Nat)) : Option (List String) :=
  (enum_entries fi).map (fun es => es ++ [sentinel_line fi.length])

/-- All external-reference blocks, flattened, in loop order. -/
def decl_blocks (fi : List (String × Nat)) : Option (List String) :=
  (optMap (fun p => (sanitize_filename p.1).map (fun s => decl_block p.1 s)) fi).map
    List.flatten

/-- Concatenation of a list of strings: Python `''.join`. -/
def joinAll : List String → String
  | [] => ""
  | a :: l => a ++ joinAll l

/-- The per-file lines `f' {filename}'` appended to `cmake_file`
(line 119). -/
def cmake_lines (fi : List (String × Nat)) : List String :=
  fi.map (fun p => " " ++ p.1)

/-- The fixed ten lines that open `h_file` (lines 90-101). -/
def header_intro : List String :=
  ["#pragma once",
   "",
   "/**",
   " * @brief Structure for embedding tone information",
   " */",
   "typedef struct \x7b",
   "    const uint8_t *address;  /*!< Pointer to the embedded tone data */",
   "    int           size;      /*!< Size of the tone data in bytes */",
   "\x7d esp_embed_tone_t;",
   ""]

/-- `gen_h_file` (lines 84-163). Returns the header text and the CMake
manifest text. The source builds the five parallel streams in one loop over
`enumerate(file_info.items())`; the independent maps below traverse the same
enumerated sequence and are its exact image. The header lines are joined
with newlines, the CMake lines with the empty string (line 163). -/
def gen_h_file (file_info : List (String × Nat)) : Option (String × String) :=
  if file_info.isEmpty then some ("", "")
  else do
    let decls ← decl_blocks file_info
    let ts ← tone_entries file_info
    let eb ← enum_block file_info
    let h_file := header_intro ++ decls ++
      ["/**",
       " * @brief Array of embedded tone information",
       " */",
       "esp_embed_tone_t g_esp_embed_tone[] = \x7b"] ++ ts ++
      ["\x7d;",
       "",
       "/**",
       " * @brief Enumeration for tone URLs",
       " */",
       "enum esp_embed_tone_index \x7b"] ++ eb ++
      ["\x7d;",
       "",
       "/**",
       " * @brief Array of tone URLs",
       " */",
       "const char * esp_embed_tone_url[] = \x7b"] ++ url_entries file_info ++
      ["\x7d;",
       ""]
    let cmake_file := ["set(COMPONENT_EMBED_TXTFILES"] ++ cmake_lines file_info ++ [")"]
    some (String.intercalate "\n" h_file, joinAll cmake_file)

/-! ### Writer: `write_file` (lines 165-177) and `main` (lines 179-212) -/

/-- The license banner `LICENSE_STR` (lines 42-48), parameterized by the
generation year that `datetime.now().year` interpolates. -/
def LICENSE_PRE : String := "/*\n * SPDX-FileCopyrightText: "

def LICENSE_SUF : String :=
  " Espressif Systems (Shanghai) CO LTD\n *\n * SPDX-License-Identifier: Unlicense OR CC0-1.0\n */\n\n"

def LICENSE_STR (year : Nat) : String :=
  LICENSE_PRE ++ toString year ++ LICENSE_SUF

/-- The writable filesystem: a map from path to file contents. -/
def FS : Type := String → Option String

/-- Create or overwrite a file. -/
def FS.set (fs : FS) (p c : String) : FS :=
  fun q => if q = p then some c else fs q

/-- `os.remove`. -/
def FS.erase (fs : FS) (p : String) : FS :=
  fun q => if q = p then none else fs q

/-- Outcome script for one `write_file` call: whether each OS operation that
gets attempted succeeds, and, when the write itself fails, how many
characters made it to disk before the `OSError`. -/
structure WOracle where
  removeOk : Bool
  openOk : Bool
  writeOk : Bool
  truncLen : Nat

/-- The body after the existence check: `open(filepath, 'w+')` then the
write(s) (lines 169-174), with `OSError` at any step caught by the handler
of lines 175-177. -/
def write_body (year : Nat) (fs : FS) (content filepath : String)
    (is_header : Bool) (o : WOracle) : Bool × FS :=
  if o.openOk then
    let full := (if is_header then LICENSE_STR year else "") ++ content
    if o.writeOk then (true, FS.set fs filepath full)
    else (false, FS.set fs filepath (String.mk (full.data.take o.truncLen)))
  else (false, fs)

/-- `write_file` (lines 165-177): remove any existing file at the target
path, then create it and write the full content, prepending the license
banner exactly when `is_header`; every `OSError` is caught and reported as
`false`. -/
def write_file (year : Nat) (fs : FS) (content filepath : String)
    (is_header : Bool) (o : WOracle) : Bool × FS :=
  if (fs filepath).isSome then
    if o.removeOk then write_body year (FS.erase fs filepath) content filepath is_header o
    else (false, fs)
  else write_body year fs content filepath is_header o

def GEN_HEAD_FILE_NAME : String := "esp_embed_tone.h"

def GEN_CMAKE_FILE_NAME : String := "esp_embed_tone.cmake"

/-- `main` (lines 179-212) after argument parsing: scan, bail out with exit
code 1 when nothing matched, generate, write the header then the manifest,
stopping with exit code 1 on the first failed write. Returns the exit code
and the final filesystem. The `none` branch of `gen_h_file` is unreachable
for scanner output (scanned filenames are non-empty); in the source an
exception raised there would likewise end the run with a non-zero status and
no file written. Output paths are modelled by the bare fixed file names. -/
def run_main (listing : List String) (getsize : String → Option Nat)
    (year : Nat) (oh oc : WOracle) (fs : FS) : Nat × FS :=
  let file_info := get_file_info listing getsize
  if file_info.isEmpty then (1, fs)
  else
    match gen_h_file file_info with
    | none => (1, fs)
    | some (h_content, cmake_content) =>
      let r1 := write_file year fs h_content GEN_HEAD_FILE_NAME true oh
      if r1.1 then
        let r2 := write_file year r1.2 cmake_content GEN_CMAKE_FILE_NAME false oc
        if r2.1 then (0, r2.2) else (1, r2.2)
      else (1, r1.2)

/-! ### Spec-level predicates (from the spec's words, for comparison) -/

/-- Character allowed after the first position of a C identifier. -/
def isIdentChar (c : Char) : Bool := c.isAlphanum || c = '_'

/-- Validity of a C identifier over a character list: non-empty, a letter or
underscore first, then letters, digits or underscores. -/
def isValidIdentChars : List Char → Bool
  | [] => false
  | c :: cs => (c.isAlpha || c = '_') && cs.all isIdentChar

/-- Validity of a C identifier, following the spec's phrase
"a valid identifier string". -/
def isValidIdent (s : String) : Bool := isValidIdentChars s.data

/-! ### Helper lemmas about the sort -/

theorem lexLe_trans : ∀ a b c : List Char,
    lexLe a b = true → lexLe b c = true → lexLe a c = true
  | [], _, _, _, _ => rfl
  | _ :: _, [], _, h1, _ => by simp [lexLe] at h1
  | _ :: _, _ :: _, [], _, h2 => by simp [lexLe] at h2
  | x :: xs, y :: ys, z :: zs, h1, h2 => by
    simp only [lexLe] at h1 h2 ⊢
    rcases Nat.lt_trichotomy x.toNat y.toNat with hxy | hxy | hxy
    · rcases Nat.lt_trichotomy y.toNat z.toNat with hyz | hyz | hyz
      · have hxz : x.toNat < z.toNat := Nat.lt_trans hxy hyz
        simp [hxz]
      · have hxz : x.toNat < z.toNat := by omega
        simp [hxz]
      · have e1 : ¬ y.toNat < z.toNat := by omega
        simp [e1, hyz] at h2
    · have e1 : ¬ x.toNat < y.toNat := by omega
      have e2 : ¬ y.toNat < x.toNat := by omega
      simp only [e1, e2, if_false] at h1
      rcases Nat.lt_trichotomy y.toNat z.toNat with hyz | hyz | hyz
      · have hxz : x.toNat < z.toNat := by omega
        simp [hxz]
      · have e3 : ¬ y.toNat < z.toNat := by omega
        have e4 : ¬ z.toNat < y.toNat := by omega
        have e5 : ¬ x.toNat < z.toNat := by omega
        have e6 : ¬ z.toNat < x.toNat := by omega
        simp only [e3, e4, if_false] at h2
        simp only [e5, e6, if_false]
        exact lexLe_trans xs ys zs h1 h2
      · have e3 : ¬ y.toNat < z.toNat := by omega
        simp [e3, hyz] at h2
    · have e1 : ¬ x.toNat < y.toNat := by omega
      simp [e1, hxy] at h1

theorem lexLe_total : ∀ a b : List Char, lexLe a b = true ∨ lexLe b a = true
  | [], _ => Or.inl rfl
  | _ :: _, [] => Or.inr rfl
  | x :: xs, y :: ys => by
    simp only [lexLe]
    rcases Nat.lt_trichotomy x.toNat y.toNat with h | h | h
    · simp [h]
    · have h1 : ¬ x.toNat < y.toNat := by omega
      have h2 : ¬ y.toNat < x.toNat := by omega
      simpa [h1, h2] using lexLe_total xs ys
    · have h1 : ¬ x.toNat < y.toNat := by omega
      simp [h, h1]

theorem strLe_trans {a b c : String} (h1 : strLe a b = true) (h2 : strLe b c = true) :
    strLe a c = true :=
  lexLe_trans a.data b.data c.data h1 h2

theorem strLe_total (a b : String) : strLe a b = true ∨ strLe b a = true :=
  lexLe_total a.data b.data

theorem mem_insertSorted (x a : String) (l : List String) :
    a ∈ insertSorted x l ↔ a = x ∨ a ∈ l := by
  induction l with
  | nil => simp [insertSorted]
  | cons y ys ih =>
    simp only [insertSorted]
    by_cases hxy : strLe x y = true
    · simp only [if_pos hxy, List.mem_cons]
    · simp only [if_neg hxy, List.mem_cons, ih]
      tauto

theorem pairwise_insertSorted (x : String) (l : List String)
    (h : l.Pairwise (fun a b => strLe a b = true)) :
    (insertSorted x l).Pairwise (fun a b => strLe a b = true) := by
  induction l with
  | nil => simp [insertSorted]
  | cons y ys ih =>
    rcases List.pairwise_cons.mp h with ⟨hy, hys⟩
    simp only [insertSorted]
    by_cases hxy : strLe x y = true
    · simp only [if_pos hxy]
      refine List.pairwise_cons.mpr ⟨?_, h⟩
      intro b hb
      rcases List.mem_cons.mp hb with rfl | hbys
      · exact hxy
      · exact strLe_trans hxy (hy b hbys)
    · simp only [if_neg hxy]
      refine List.pairwise_cons.mpr ⟨?_, ih hys⟩
      intro b hb
      rcases (mem_insertSorted x b ys).mp hb with hbx | hbys
      · subst hbx
        rcases strLe_total b y with hx | hx
        · exact absurd hx hxy
        · exact hx
      · exact hy b hbys

theorem sorted_sortStrings (l : List String) :
    (sortStrings l).Pairwise (fun a b => strLe a b = true) := by
  induction l with
  | nil => simp [sortStrings]
  | cons x xs ih => exact pairwise_insertSorted x (sortStrings xs) ih

theorem mem_sortStrings (a : String) (l : List String) :
    a ∈ sortStrings l ↔ a ∈ l := by
  induction l with
  | nil => simp [sortStrings]
  | cons x xs ih =>
    simp [sortStrings, mem_insertSorted x a (sortStrings xs), ih]

/-! ### Helper lemmas about `optMap` -/

theorem optMap_eq_some {α β : Type} (f : α → Option β) :
    ∀ {l : List α} {r : List β}, optMap f l = some r →
      r.length = l.length ∧ ∀ i : Nat, r[i]? = (l[i]?).bind f
  | [], r, h => by
    simp only [optMap, Option.some.injEq] at h
    subst h
    exact ⟨rfl, fun i => by simp⟩
  | a :: l, r, h => by
    simp only [optMap] at h
    cases hfa : f a with
    | none => rw [hfa] at h; simp at h
    | some b =>
      rw [hfa] at h
      cases hml : optMap f l with
      | none => rw [hml] at h; simp at h
      | some bs =>
        rw [hml] at h
        simp only [Option.some.injEq] at h
        subst h
        rcases optMap_eq_some f hml with ⟨hlen, hget⟩
        refine ⟨by simp [hlen], fun i => ?_⟩
        cases i with
        | zero => simp [hfa]
        | succ j => simpa using hget j

theorem optMap_isSome {α β : Type} (f : α → Option β) :
    ∀ l : List α, (∀ a ∈ l, (f a).isSome = true) → ∃ r, optMap f l = some r
  | [], _ => ⟨[], rfl⟩
  | a :: l, h => by
    rcases Option.isSome_iff_exists.mp (h a (by simp)) with ⟨b, hb⟩
    rcases optMap_isSome f l (fun x hx => h x (by simp [hx])) with ⟨bs, hbs⟩
    exact ⟨b :: bs, by simp [optMap, hb, hbs]⟩

theorem enum_snd_mem {α : Type} {xs : List α} {p : Nat × α} (h : p ∈ xs.enum) :
    p.2 ∈ xs := by
  obtain ⟨i, x⟩ := p
  rcases List.mem_enum h with ⟨hi, hx⟩
  rw [show (i, x).2 = x from rfl, hx]
  exact List.getElem_mem hi

/-! ### Helper lemmas about the sanitizer -/

theorem data_ne_nil_of_ne_empty {s : String} (h : s ≠ "") : s.data ≠ [] := by
  intro hd
  exact h (String.ext (by simpa using hd))

theorem sanitize_eq_of_ne_empty {s : String} (h : s ≠ "") :
    sanitize_filename s =
      some (if startsWithDigit (replaceSeps s) then "tone_" ++ replaceSeps s
            else replaceSeps s) := by
  have hd : s.data ≠ [] := data_ne_nil_of_ne_empty h
  cases hsd : s.data with
  | nil => exact absurd hsd hd
  | cons c cs =>
    unfold sanitize_filename startsWithDigit headIsDigit replaceSeps
    simp [hsd]

theorem sanitize_isSome_of_ne_empty {s : String} (h : s ≠ "") :
    (sanitize_filename s).isSome = true := by
  rw [sanitize_eq_of_ne_empty h]
  rfl

theorem isSupported_ne_empty {fn : String} (h : isSupported fn = true) : fn ≠ "" :=
  fun he => absurd h (by subst he; decide)

theorem identChar_sepToUnderscore {c : Char}
    (h : (c.isAlphanum || c == '-' || c == '.' || c == ' ' || c == '_') = true) :
    isIdentChar (sepToUnderscore c) = true := by
  unfold sepToUnderscore isIdentChar
  by_cases hs : c = '-' ∨ c = '.' ∨ c = ' '
  · simp only [if_pos hs]
    decide
  · simp only [if_neg hs]
    simp only [Bool.or_eq_true, beq_iff_eq] at h
    rcases h with ((((h | h) | h) | h) | h)
    · simp [h]
    · exact absurd (Or.inl h) hs
    · exact absurd (Or.inr (Or.inl h)) hs
    · exact absurd (Or.inr (Or.inr h)) hs
    · simp [h]

theorem sepToUnderscore_not_sep (c : Char) :
    (sepToUnderscore c == '-' || sepToUnderscore c == '.' || sepToUnderscore c == ' ')
      = false := by
  unfold sepToUnderscore
  by_cases hs : c = '-' ∨ c = '.' ∨ c = ' '
  · simp only [if_pos hs]
    decide
  · simp only [if_neg hs]
    push_neg at hs
    simp [hs.1, hs.2.1, hs.2.2]

theorem replaceSeps_fix {t : String}
    (h : ∀ c ∈ t.data, (c == '-' || c == '.' || c == ' ') = false) :
    replaceSeps t = t := by
  apply String.ext
  show t.data.map sepToUnderscore = t.data
  have : ∀ c ∈ t.data, sepToUnderscore c = c := by
    intro c hc
    have hc' := h c hc
    simp only [Bool.or_eq_false_iff, beq_eq_false_iff_ne, ne_eq] at hc'
    unfold sepToUnderscore
    rw [if_neg]
    tauto
  calc t.data.map sepToUnderscore = t.data.map id := List.map_congr_left this
    _ = t.data := List.map_id t.data

theorem replaceSeps_data (s : String) :
    (replaceSeps s).data = s.data.map sepToUnderscore := rfl

theorem no_sep_of_sanitized {r : String}
    (hr : r = "tone_" ++ replaceSeps s ∨ r = replaceSeps s) :
    (r.data.all fun c => !(c == '-' || c == '.' || c == ' ')) = true := by
  have hmap : ∀ c ∈ (replaceSeps s).data, (!(c == '-' || c == '.' || c == ' ')) = true := by
    intro c hc
    rw [replaceSeps_data] at hc
    rcases List.mem_map.mp hc with ⟨c₀, _, rfl⟩
    simp [sepToUnderscore_not_sep c₀]
  rcases hr with rfl | rfl
  · rw [List.all_eq_true]
    intro c hc
    rw [String.data_append] at hc
    rcases List.mem_append.mp hc with hc | hc
    · have : "tone_".data = ['t', 'o', 'n', 'e', '_'] := rfl
      rw [this] at hc
      fin_cases hc <;> decide
    · exact hmap c hc
  · exact List.all_eq_true.mpr hmap

/-- C3: the sanitizer on every non-empty input replaces every separator
(`-`, `.`, space) with an underscore via `replaceSeps` and prepends the fixed
prefix `tone_` exactly when the replaced result starts with a digit; the two
example equations of the spec hold. (On the empty string the source raises
instead; see the counterexample, so the claim is amended to non-empty
inputs.) -/
theorem sanitize_replacement_spec :
    (∀ s : String, s ≠ "" →
      sanitize_filename s =
        some (if startsWithDigit (replaceSeps s) then "tone_" ++ replaceSeps s
              else replaceSeps s)) ∧
    sanitize_filename "1-tone.wav" = some "tone_1_tone_wav" ∧
    sanitize_filename "a b.mp3" = some "a_b_mp3" :=
  ⟨fun _ h => sanitize_eq_of_ne_empty h, by decide, by decide⟩

/-- C3 witness: the universally quantified part of
`sanitize_replacement_spec` applied at the concrete input `"x-y.wav"`. -/
theorem sanitize_replacement_spec_witness :
    sanitize_filename "x-y.wav" =
      some (if startsWithDigit (replaceSeps "x-y.wav") then "tone_" ++ replaceSeps "x-y.wav"
            else replaceSeps "x-y.wav") :=
  sanitize_replacement_spec.1 "x-y.wav" (by decide)

/-- C3 counterexample: the claim quantifies over every raw filename string,
but on the empty string the source raises `IndexError` at `sanitized[0]`
(modelled by `none`) instead of returning the separator-replaced result. -/
theorem sanitize_empty_input_cex :
    sanitize_filename "" = none ∧ sanitize_filename "" ≠ some (replaceSeps "") := by
  decide

/-- C5 counterexample: the printable input `"@a"` sanitizes without error to
`"@a"`, which is not a valid identifier, and the printable empty string makes
the sanitizer raise (modelled by `none`), so the sanitizer is neither total
over all printable inputs nor identifier-valued on all of them. -/
theorem sanitize_not_identifier_cex :
    (sanitize_filename "@a" = some "@a" ∧ isValidIdent "@a" = false) ∧
      sanitize_filename "" = none := by
  decide

/-- C5 (amended): on every non-empty input the sanitizer evaluates without
error (it is a pure total function there), and whenever every input
character is alphanumeric or one of `-`, `.`, space, `_`, its result is a
valid identifier. -/
theorem sanitize_total_ident (s : String) (h : s ≠ "") :
    ∃ r, sanitize_filename s = some r ∧
      ((s.data.all fun c => c.isAlphanum || c == '-' || c == '.' || c == ' ' || c == '_') = true →
        isValidIdent r = true) := by
  refine ⟨_, sanitize_eq_of_ne_empty h, ?_⟩
  intro hall
  have hall' : ∀ c ∈ s.data,
      (c.isAlphanum || c == '-' || c == '.' || c == ' ' || c == '_') = true :=
    fun c hc => List.all_eq_true.mp hall c hc
  have htail : ((replaceSeps s).data.all isIdentChar) = true := by
    rw [replaceSeps_data, List.all_map, List.all_eq_true]
    intro c hc
    exact identChar_sepToUnderscore (hall' c hc)
  cases hsd : s.data with
  | nil => exact absurd hsd (data_ne_nil_of_ne_empty h)
  | cons c cs =>
    have hrdata : (replaceSeps s).data = sepToUnderscore c :: cs.map sepToUnderscore := by
      rw [replaceSeps_data, hsd]
      rfl
    by_cases hdig : startsWithDigit (replaceSeps s) = true
    · rw [if_pos hdig]
      unfold isValidIdent isValidIdentChars
      rw [String.data_append, show "tone_".data = ['t', 'o', 'n', 'e', '_'] from rfl]
      simp only [List.cons_append, List.nil_append, List.all_cons, Bool.and_eq_true]
      refine ⟨by decide, by decide, by decide, by decide, by decide, ?_⟩
      exact htail
    · rw [if_neg hdig]
      unfold isValidIdent isValidIdentChars
      rw [hrdata]
      rw [hrdata, List.all_cons, Bool.and_eq_true] at htail
      simp only [Bool.and_eq_true]
      refine ⟨?_, htail.2⟩
      have hnd : (sepToUnderscore c).isDigit = false := by
        unfold startsWithDigit at hdig
        rw [hrdata] at hdig
        unfold headIsDigit at hdig
        simpa using hdig
      have hc := hall' c (by rw [hsd]; simp)
      unfold sepToUnderscore at hnd ⊢
      by_cases hs : c = '-' ∨ c = '.' ∨ c = ' '
      · simp only [if_pos hs]
        decide
      · simp only [if_neg hs] at hnd ⊢
        simp only [Bool.or_eq_true, beq_iff_eq] at hc
        rcases hc with ((((hc | hc) | hc) | hc) | hc)
        · have : c.isAlpha || c.isDigit := hc
          rw [hnd] at this
          simp only [Bool.or_false] at this
          simp [this]
        · exact absurd (Or.inl hc) hs
        · exact absurd (Or.inr (Or.inl hc)) hs
        · exact absurd (Or.inr (Or.inr hc)) hs
        · simp [hc]

/-- C5 witness: `sanitize_total_ident` applied at the concrete input
`"tune 1.mp3"`. -/
theorem sanitize_total_ident_witness :
    ∃ r, sanitize_filename "tune 1.mp3" = some r ∧
      (("tune 1.mp3".data.all
          fun c => c.isAlphanum || c == '-' || c == '.' || c == ' ' || c == '_') = true →
        isValidIdent r = true) :=
  sanitize_total_ident "tune 1.mp3" (by decide)

/-- C10: sanitization is idempotent on non-empty strings, because its output
contains no `-`, `.` or space and never begins with a digit. -/
theorem sanitize_idempotent (s : String) (h : s ≠ "") :
    (sanitize_filename s).bind sanitize_filename = sanitize_filename s ∧
    ∀ r, sanitize_filename s = some r →
      (r.data.all fun c => !(c == '-' || c == '.' || c == ' ')) = true ∧
      startsWithDigit r = false := by
  have hs := sanitize_eq_of_ne_empty h
  have key : ∀ r, sanitize_filename s = some r →
      (r.data.all fun c => !(c == '-' || c == '.' || c == ' ')) = true ∧
      startsWithDigit r = false := by
    intro r hr
    rw [hs] at hr
    injection hr with hr
    by_cases hdig : startsWithDigit (replaceSeps s) = true
    · rw [if_pos hdig] at hr
      refine ⟨no_sep_of_sanitized (Or.inl hr.symm), ?_⟩
      rw [← hr]
      unfold startsWithDigit
      rw [String.data_append, show "tone_".data = ['t', 'o', 'n', 'e', '_'] from rfl]
      rfl
    · rw [if_neg hdig] at hr
      refine ⟨no_sep_of_sanitized (Or.inr hr.symm), ?_⟩
      rw [← hr]
      simpa using hdig
  refine ⟨?_, key⟩
  set r := if startsWithDigit (replaceSeps s) then "tone_" ++ replaceSeps s
           else replaceSeps s with hrdef
  rcases key r hs with ⟨hnosep, hnd⟩
  have hrne : r ≠ "" := by
    rw [hrdef]
    by_cases hdig : startsWithDigit (replaceSeps s) = true
    · rw [if_pos hdig]
      intro he
      have hda : ("tone_" ++ replaceSeps s).data = [] := by rw [he]
      rw [String.data_append] at hda
      simp at hda
    · rw [if_neg hdig]
      intro he
      apply data_ne_nil_of_ne_empty h
      have hmap : s.data.map sepToUnderscore = [] := by
        rw [← replaceSeps_data, he]
      exact List.map_eq_nil_iff.mp hmap
  have hfix : replaceSeps r = r := by
    apply replaceSeps_fix
    intro c hc
    simpa using List.all_eq_true.mp hnosep c hc
  rw [hs]
  show sanitize_filename r = some r
  simp [sanitize_eq_of_ne_empty hrne, hfix, hnd]

/-- C10 witness: `sanitize_idempotent` applied at the concrete input
`"2-b.wav"`. -/
theorem sanitize_idempotent_witness :
    ((sanitize_filename "2-b.wav").bind sanitize_filename = sanitize_filename "2-b.wav") ∧
    ∀ r, sanitize_filename "2-b.wav" = some r →
      (r.data.all fun c => !(c == '-' || c == '.' || c == ' ')) = true ∧
      startsWithDigit r = false :=
  sanitize_idempotent "2-b.wav" (by decide)

/-! ### Helper lemmas about the scanner -/

theorem mem_get_file_info (listing : List String) (getsize : String → Option Nat)
    (fn : String) (sz : Nat) :
    (fn, sz) ∈ get_file_info listing getsize ↔
      fn ∈ listing ∧ isSupported fn = true ∧ getsize fn = some sz := by
  simp only [get_file_info]
  by_cases hemp : (sortStrings (listing.filter isSupported)).isEmpty = true
  · simp only [hemp, if_true]
    rw [List.isEmpty_iff] at hemp
    constructor
    · intro h
      simp at h
    · rintro ⟨h1, h2, _⟩
      have hmem : fn ∈ sortStrings (listing.filter isSupported) :=
        (mem_sortStrings fn _).mpr (List.mem_filter.mpr ⟨h1, h2⟩)
      rw [hemp] at hmem
      simp at hmem
  · rw [if_neg hemp, List.mem_filterMap]
    constructor
    · rintro ⟨a, ha, hmap⟩
      rcases Option.map_eq_some'.mp hmap with ⟨v, hv, heq⟩
      have ha1 : a = fn := congrArg Prod.fst heq
      have hv1 : v = sz := congrArg Prod.snd heq
      subst ha1
      subst hv1
      rcases List.mem_filter.mp ((mem_sortStrings a _).mp ha) with ⟨hmem, hsupp⟩
      exact ⟨hmem, hsupp, hv⟩
    · rintro ⟨h1, h2, h3⟩
      refine ⟨fn, (mem_sortStrings fn _).mpr (List.mem_filter.mpr ⟨h1, h2⟩), ?_⟩
      rw [h3]
      rfl

theorem map_fst_filterMap_size (g : String → Option Nat) (l : List String) :
    (l.filterMap (fun fname => (g fname).map (fun size => (fname, size)))).map Prod.fst
      = l.filter (fun fname => (g fname).isSome) := by
  induction l with
  | nil => rfl
  | cons a l ih =>
    cases hg : g a <;>
      simp [List.filterMap_cons, hg, List.filter_cons, ih]

theorem sorted_scan (listing : List String) (getsize : String → Option Nat) :
    ((get_file_info listing getsize).map Prod.fst).Pairwise
      (fun a b => strLe a b = true) := by
  simp only [get_file_info]
  by_cases hemp : (sortStrings (listing.filter isSupported)).isEmpty = true
  · simp [hemp]
  · rw [if_neg hemp, map_fst_filterMap_size]
    exact List.Pairwise.sublist (List.filter_sublist _) (sorted_sortStrings _)

theorem scan_names_sanitize {listing : List String} {getsize : String → Option Nat}
    {p : Nat × String × Nat} (hp : p ∈ (get_file_info listing getsize).enum) :
    (sanitize_filename p.2.1).isSome = true := by
  have hmem := enum_snd_mem hp
  have hmem' : (p.2.1, p.2.2) ∈ get_file_info listing getsize := by
    rw [Prod.mk.eta]
    exact hmem
  have hsupp := ((mem_get_file_info listing getsize p.2.1 p.2.2).mp hmem').2.1
  exact sanitize_isSome_of_ne_empty (isSupported_ne_empty hsupp)

/-- C7: the scanner's result contains exactly the supported files of the
listing whose size read succeeded; a file whose size read fails (`getsize`
returns `none`, modelling the caught `OSError`) is skipped without affecting
the other entries, so a single per-file failure never aborts the scan. -/
theorem scan_skips_failed_stat (listing : List String) (getsize : String → Option Nat)
    (fn : String) (sz : Nat) :
    (fn, sz) ∈ get_file_info listing getsize ↔
      fn ∈ listing ∧ isSupported fn = true ∧ getsize fn = some sz :=
  mem_get_file_info listing getsize fn sz

/-- C6: when no file in the directory matches a supported extension
(case-insensitively), the run exits with code 1 and the filesystem is
untouched — neither the header nor the manifest is created. -/
theorem run_no_match_exits_one (listing : List String) (getsize : String → Option Nat)
    (year : Nat) (oh oc : WOracle) (fs : FS)
    (hnone : ∀ f ∈ listing, isSupported f = false) :
    run_main listing getsize year oh oc fs = (1, fs) := by
  have hfil : listing.filter isSupported = [] :=
    List.filter_eq_nil_iff.mpr (fun a ha => by simp [hnone a ha])
  simp only [run_main, get_file_info, hfil]
  rfl

/-- C6 witness: `run_no_match_exits_one` on a directory holding only
`readme.txt`, with an empty filesystem. -/
theorem run_no_match_exits_one_witness :
    run_main ["readme.txt"] (fun _ => some 5) 2025 ⟨true, true, true, 0⟩
      ⟨true, true, true, 0⟩ (fun _ => none) = (1, fun _ => none) :=
  run_no_match_exits_one _ _ _ _ _ _ (by decide)

/-! ### Helper lemmas about the generated entry streams -/

theorem entries_of_names {fi : List (String × Nat)} (hnames : ∀ p ∈ fi, p.1 ≠ "") :
    ∃ ts es, tone_entries fi = some ts ∧ enum_entries fi = some es ∧
      ts.length = fi.length ∧ es.length = fi.length ∧
      ∀ i, i < fi.length → ∃ fn sz s, fi[i]? = some (fn, sz) ∧
        sanitize_filename fn = some s ∧
        ts[i]? = some (tone_entry i s sz) ∧ es[i]? = some (enum_entry i s) := by
  have hsan : ∀ p ∈ fi.enum, (sanitize_filename p.2.1).isSome = true := fun p hp =>
    sanitize_isSome_of_ne_empty (hnames p.2 (enum_snd_mem hp))
  obtain ⟨ts, hts⟩ := optMap_isSome
    (fun p => (sanitize_filename p.2.1).map (fun s => tone_entry p.1 s p.2.2)) fi.enum
    (fun p hp => by
      rcases Option.isSome_iff_exists.mp (hsan p hp) with ⟨s, hs⟩
      simp [hs])
  obtain ⟨es, hes⟩ := optMap_isSome
    (fun p => (sanitize_filename p.2.1).map (fun s => enum_entry p.1 s)) fi.enum
    (fun p hp => by
      rcases Option.isSome_iff_exists.mp (hsan p hp) with ⟨s, hs⟩
      simp [hs])
  rcases optMap_eq_some _ hts with ⟨htslen, htsget⟩
  rcases optMap_eq_some _ hes with ⟨heslen, hesget⟩
  refine ⟨ts, es, hts, hes, by rw [htslen, List.enum_length],
    by rw [heslen, List.enum_length], ?_⟩
  intro i hi
  have hgi : fi[i]? = some fi[i] := List.getElem?_eq_getElem hi
  have henum : fi.enum[i]? = some (i, fi[i]) := by
    rw [List.getElem?_enum, hgi]
    rfl
  have hne := hnames fi[i] (List.getElem_mem hi)
  rcases Option.isSome_iff_exists.mp (sanitize_isSome_of_ne_empty hne) with ⟨s, hs⟩
  refine ⟨fi[i].1, fi[i].2, s, by rw [hgi, Prod.mk.eta], hs, ?_, ?_⟩
  · rw [htsget i, henum]
    simp [hs]
  · rw [hesget i, henum]
    simp [hs]

/-- C1: for every non-empty scan result, the three indexed artifacts of the
header (the address-table entries, the enum members and the URL strings) are
generated from the same scanned sequence: they have equal lengths, the entry
at position `i` of each carries the index `i` (contiguous from 0) and
derives from the `i`-th scanned filename, and that sequence is in ascending
lexicographic (code-point) order of the original filenames. -/
theorem scan_artifacts_aligned (listing : List String) (getsize : String → Option Nat)
    (_hne : get_file_info listing getsize ≠ []) :
    ((get_file_info listing getsize).map Prod.fst).Pairwise
        (fun a b => strLe a b = true) ∧
    ∃ ts es, tone_entries (get_file_info listing getsize) = some ts ∧
      enum_entries (get_file_info listing getsize) = some es ∧
      ts.length = (get_file_info listing getsize).length ∧
      es.length = (get_file_info listing getsize).length ∧
      (url_entries (get_file_info listing getsize)).length
        = (get_file_info listing getsize).length ∧
      ∀ i, i < (get_file_info listing getsize).length →
        ∃ fn sz s, (get_file_info listing getsize)[i]? = some (fn, sz) ∧
          sanitize_filename fn = some s ∧
          ts[i]? = some (tone_entry i s sz) ∧
          es[i]? = some (enum_entry i s) ∧
          (url_entries (get_file_info listing getsize))[i]? = some (url_entry i fn) := by
  have hnames : ∀ p ∈ get_file_info listing getsize, p.1 ≠ "" := by
    intro p hp
    have hp' : (p.1, p.2) ∈ get_file_info listing getsize := by
      rw [Prod.mk.eta]
      exact hp
    exact isSupported_ne_empty ((mem_get_file_info listing getsize p.1 p.2).mp hp').2.1
  rcases entries_of_names hnames with ⟨ts, es, hts, hes, htl, hel, hidx⟩
  refine ⟨sorted_scan listing getsize, ts, es, hts, hes, htl, hel, ?_, fun i hi => ?_⟩
  · simp [url_entries, List.enum_length]
  · rcases hidx i hi with ⟨fn, sz, s, h1, h2, h3, h4⟩
    refine ⟨fn, sz, s, h1, h2, h3, h4, ?_⟩
    unfold url_entries
    rw [List.getElem?_map, List.getElem?_enum, h1]
    rfl

/-- C1 witness: the sortedness component of `scan_artifacts_aligned` on the
spec's two-file example directory. -/
theorem scan_artifacts_aligned_witness :
    ((get_file_info ["b.wav", "a.mp3"] (fun _ => some 7)).map Prod.fst).Pairwise
      (fun a b => strLe a b = true) :=
  (scan_artifacts_aligned ["b.wav", "a.mp3"] (fun _ => some 7) (by decide)).1

/-- C4: for `N > 0` entries with well-formed (non-empty) filenames, the
generated enum body is the `N` per-entry members (each an upper-cased
sanitized identifier mapped to its index) followed by exactly one trailing
sentinel member whose value is `N`. -/
theorem enum_sentinel_spec (fi : List (String × Nat)) (_hpos : 0 < fi.length)
    (hnames : ∀ p ∈ fi, p.1 ≠ "") :
    ∃ es, enum_entries fi = some es ∧
      enum_block fi = some (es ++ [sentinel_line fi.length]) ∧
      es.length = fi.length ∧
      (es ++ [sentinel_line fi.length]).length = fi.length + 1 ∧
      (es ++ [sentinel_line fi.length]).getLast? = some (sentinel_line fi.length) ∧
      ∀ i, i < fi.length → ∃ fn sz s, fi[i]? = some (fn, sz) ∧
        sanitize_filename fn = some s ∧ es[i]? = some (enum_entry i s) := by
  rcases entries_of_names hnames with ⟨ts, es, hts, hes, htl, hel, hidx⟩
  refine ⟨es, hes, ?_, hel, by simp [hel], List.getLast?_concat _, fun i hi => ?_⟩
  · unfold enum_block
    rw [hes]
    rfl
  · rcases hidx i hi with ⟨fn, sz, s, h1, h2, _, h4⟩
    exact ⟨fn, sz, s, h1, h2, h4⟩

/-- C4 witness: `enum_sentinel_spec` on the one-entry input
`[("a.wav", 5)]`. -/
theorem enum_sentinel_spec_witness :
    ∃ es, enum_entries [("a.wav", 5)] = some es ∧
      enum_block [("a.wav", 5)] = some (es ++ [sentinel_line [("a.wav", 5)].length]) ∧
      es.length = [("a.wav", 5)].length ∧
      (es ++ [sentinel_line [("a.wav", 5)].length]).length = [("a.wav", 5)].length + 1 ∧
      (es ++ [sentinel_line [("a.wav", 5)].length]).getLast?
        = some (sentinel_line [("a.wav", 5)].length) ∧
      ∀ i, i < [("a.wav", 5)].length → ∃ fn sz s, [("a.wav", 5)][i]? = some (fn, sz) ∧
        sanitize_filename fn = some s ∧ es[i]? = some (enum_entry i s) :=
  enum_sentinel_spec [("a.wav", 5)] (by decide) (by decide)

/-! ### Helper lemmas about the generator and the manifest -/

theorem str_append_empty (s : String) : s ++ "" = s :=
  String.ext (by simp [String.data_append])

theorem joinAll_append : ∀ l1 l2 : List String, joinAll (l1 ++ l2) = joinAll l1 ++ joinAll l2
  | [], _ => rfl
  | a :: l1, l2 => by
    show a ++ joinAll (l1 ++ l2) = (a ++ joinAll l1) ++ joinAll l2
    rw [joinAll_append l1 l2, String.append_assoc]

theorem gen_h_file_eq {fi : List (String × Nat)} (hne : fi ≠ [])
    (hnames : ∀ p ∈ fi, p.1 ≠ "") :
    ∃ decls ts eb, decl_blocks fi = some decls ∧ tone_entries fi = some ts ∧
      enum_block fi = some eb ∧
      gen_h_file fi = some
        (String.intercalate "\n" (header_intro ++ decls ++
          ["/**",
           " * @brief Array of embedded tone information",
           " */",
           "esp_embed_tone_t g_esp_embed_tone[] = \x7b"] ++ ts ++
          ["\x7d;",
           "",
           "/**",
           " * @brief Enumeration for tone URLs",
           " */",
           "enum esp_embed_tone_index \x7b"] ++ eb ++
          ["\x7d;",
           "",
           "/**",
           " * @brief Array of tone URLs",
           " */",
           "const char * esp_embed_tone_url[] = \x7b"] ++ url_entries fi ++
          ["\x7d;",
           ""]),
         joinAll (["set(COMPONENT_EMBED_TXTFILES"] ++ cmake_lines fi ++ [")"])) := by
  have hsan : ∀ p ∈ fi, (sanitize_filename p.1).isSome = true := fun p hp =>
    sanitize_isSome_of_ne_empty (hnames p hp)
  obtain ⟨d, hd⟩ := optMap_isSome
    (fun p => (sanitize_filename p.1).map (fun s => decl_block p.1 s)) fi
    (fun p hp => by
      rcases Option.isSome_iff_exists.mp (hsan p hp) with ⟨s, hs⟩
      simp [hs])
  have hdecls : decl_blocks fi = some d.flatten := by
    unfold decl_blocks
    rw [hd]
    rfl
  obtain ⟨ts, es, hts, hes, _, _, _⟩ := entries_of_names hnames
  have heb : enum_block fi = some (es ++ [sentinel_line fi.length]) := by
    unfold enum_block
    rw [hes]
    rfl
  refine ⟨d.flatten, ts, es ++ [sentinel_line fi.length], hdecls, hts, heb, ?_⟩
  unfold gen_h_file
  rw [if_neg (by simpa [List.isEmpty_iff] using hne), hdecls, hts, heb]
  rfl

/-- C2 counterexample: for the two-file input the generated manifest is the
single line `set(COMPONENT_EMBED_TXTFILES a.mp3 b.wav)` — the per-file
strings are joined with the empty string (source line 163), so the manifest
contains no newline at all and does not list one filename per line. -/
theorem manifest_not_one_per_line_cex :
    (gen_h_file [("a.mp3", 10), ("b.wav", 20)]).map (fun p => p.2) =
      some "set(COMPONENT_EMBED_TXTFILES a.mp3 b.wav)" ∧
    ("set(COMPONENT_EMBED_TXTFILES a.mp3 b.wav)".data.all fun c => !(c == '\n')) = true := by
  constructor
  · rfl
  · decide

/-- C2 (amended): for every non-empty input with well-formed filenames, the
generated manifest is a single build-file-list statement that names every
original (unsanitized) filename in scan order, each preceded by one space,
all on one line, framed by the opening declaration
`set(COMPONENT_EMBED_TXTFILES` and the closing terminator `)`. -/
theorem manifest_single_statement (fi : List (String × Nat)) (hne : fi ≠ [])
    (hnames : ∀ p ∈ fi, p.1 ≠ "") :
    ∃ h, gen_h_file fi = some (h,
      "set(COMPONENT_EMBED_TXTFILES" ++ joinAll (cmake_lines fi) ++ ")") := by
  obtain ⟨d, ts, eb, _, _, _, hgen⟩ := gen_h_file_eq hne hnames
  have hjoin : joinAll (["set(COMPONENT_EMBED_TXTFILES"] ++ cmake_lines fi ++ [")"])
      = "set(COMPONENT_EMBED_TXTFILES" ++ joinAll (cmake_lines fi) ++ ")" := by
    show "set(COMPONENT_EMBED_TXTFILES" ++ joinAll (cmake_lines fi ++ [")"]) = _
    rw [joinAll_append]
    show _ ++ (joinAll (cmake_lines fi) ++ (")" ++ "")) = _
    rw [str_append_empty, String.append_assoc]
  rw [hgen, hjoin]
  exact ⟨_, rfl⟩

/-- C2 witness: `manifest_single_statement` at the one-file input
`[("beep.mp3", 9)]`. -/
theorem manifest_single_statement_witness :
    ∃ h, gen_h_file [("beep.mp3", 9)] = some (h,
      "set(COMPONENT_EMBED_TXTFILES" ++ joinAll (cmake_lines [("beep.mp3", 9)]) ++ ")") :=
  manifest_single_statement [("beep.mp3", 9)] (by decide) (by decide)

/-! ### Helper lemmas about the writer and the driver -/

theorem write_file_ok (year : Nat) (fs : FS) (content filepath : String)
    (is_header : Bool) (o : WOracle) (hr : o.removeOk = true) (ho : o.openOk = true)
    (hw : o.writeOk = true) :
    write_file year fs content filepath is_header o =
      (true, FS.set (if (fs filepath).isSome then FS.erase fs filepath else fs) filepath
        ((if is_header then LICENSE_STR year else "") ++ content)) := by
  unfold write_file write_body
  by_cases hex : (fs filepath).isSome = true
  · rw [if_pos hex, if_pos hr, if_pos ho, if_pos hw, if_pos hex]
  · rw [if_neg hex, if_pos ho, if_pos hw, if_neg hex]

theorem scan_names_ne (listing : List String) (getsize : String → Option Nat) :
    ∀ p ∈ get_file_info listing getsize, p.1 ≠ "" := by
  intro p hp
  have hp' : (p.1, p.2) ∈ get_file_info listing getsize := by
    rw [Prod.mk.eta]
    exact hp
  exact isSupported_ne_empty ((mem_get_file_info listing getsize p.1 p.2).mp hp').2.1

theorem run_main_eq_of_gen (listing : List String) (getsize : String → Option Nat)
    (year : Nat) (oh oc : WOracle) (fs : FS)
    (hne : (get_file_info listing getsize).isEmpty = false)
    {hc cc : String} (hgen : gen_h_file (get_file_info listing getsize) = some (hc, cc)) :
    run_main listing getsize year oh oc fs =
      (if (write_file year fs hc GEN_HEAD_FILE_NAME true oh).1 then
        (if (write_file year (write_file year fs hc GEN_HEAD_FILE_NAME true oh).2
              cc GEN_CMAKE_FILE_NAME false oc).1 then
          (0, (write_file year (write_file year fs hc GEN_HEAD_FILE_NAME true oh).2
                cc GEN_CMAKE_FILE_NAME false oc).2)
         else
          (1, (write_file year (write_file year fs hc GEN_HEAD_FILE_NAME true oh).2
                cc GEN_CMAKE_FILE_NAME false oc).2))
       else (1, (write_file year fs hc GEN_HEAD_FILE_NAME true oh).2)) := by
  unfold run_main
  rw [if_neg (by simp [hne]), hgen]

theorem FS.set_self {fs : FS} {p c : String} : FS.set fs p c p = some c := by
  simp [FS.set]

theorem FS.set_ne {fs : FS} {p q : String} (h : q ≠ p) {c : String} :
    FS.set fs p c q = fs q := by
  simp [FS.set, h]

theorem FS.erase_ne {fs : FS} {p q : String} (h : q ≠ p) : FS.erase fs p q = fs q := by
  simp [FS.erase, h]

theorem run_main_ok (listing : List String) (getsize : String → Option Nat)
    (year : Nat) (fs : FS) (hne : get_file_info listing getsize ≠ []) :
    ∃ hc cc, gen_h_file (get_file_info listing getsize) = some (hc, cc) ∧
      (run_main listing getsize year ⟨true, true, true, 0⟩ ⟨true, true, true, 0⟩ fs).1 = 0 ∧
      (run_main listing getsize year ⟨true, true, true, 0⟩ ⟨true, true, true, 0⟩ fs).2
        GEN_HEAD_FILE_NAME = some (LICENSE_STR year ++ hc) ∧
      (run_main listing getsize year ⟨true, true, true, 0⟩ ⟨true, true, true, 0⟩ fs).2
        GEN_CMAKE_FILE_NAME = some cc := by
  obtain ⟨d, ts, eb, _, _, _, hgen⟩ := gen_h_file_eq hne (scan_names_ne listing getsize)
  refine ⟨_, _, hgen, ?_⟩
  rw [run_main_eq_of_gen listing getsize year _ _ fs
    (by simp [List.isEmpty_iff, hne]) hgen]
  have hne2 : GEN_HEAD_FILE_NAME ≠ GEN_CMAKE_FILE_NAME := by decide
  have hne2' : GEN_CMAKE_FILE_NAME ≠ GEN_HEAD_FILE_NAME := by decide
  rw [write_file_ok year fs _ GEN_HEAD_FILE_NAME true _ rfl rfl rfl,
    write_file_ok year _ _ GEN_CMAKE_FILE_NAME false _ rfl rfl rfl]
  refine ⟨rfl, ?_, ?_⟩
  · split_ifs <;>
      first
        | (exact absurd rfl (by assumption))
        | exact False.elim (by assumption)
        | simp [FS.set, FS.erase, hne2, hne2']
  · split_ifs <;>
      first
        | (exact absurd rfl (by assumption))
        | exact False.elim (by assumption)
        | simp [FS.set, FS.erase, hne2, hne2']

/-- C8: `write_file` removes any existing file at the target path first (if
removal is denied the old file survives; if removal succeeds but the create
fails, the old file is gone), then creates the file and writes the full
content, with the license banner prepended exactly when the artifact is the
header; it returns `true` exactly when every attempted operation succeeds,
and an `OSError` at any step is caught and reported as a `false` return
value instead of escaping (the model is a total function). -/
theorem write_file_spec (year : Nat) (fs : FS) (content filepath : String)
    (is_header : Bool) (o : WOracle) :
    ((write_file year fs content filepath is_header o).1 = true ↔
      (((fs filepath).isSome = true → o.removeOk = true) ∧ o.openOk = true ∧
        o.writeOk = true)) ∧
    ((write_file year fs content filepath is_header o).1 = true →
      (write_file year fs content filepath is_header o).2 filepath
          = some ((if is_header then LICENSE_STR year else "") ++ content) ∧
      ∀ q, q ≠ filepath → (write_file year fs content filepath is_header o).2 q = fs q) ∧
    ((fs filepath).isSome = true → o.removeOk = false →
      write_file year fs content filepath is_header o = (false, fs)) ∧
    ((fs filepath).isSome = true → o.removeOk = true → o.openOk = false →
      write_file year fs content filepath is_header o = (false, FS.erase fs filepath)) := by
  unfold write_file write_body
  by_cases hex : (fs filepath).isSome = true <;>
    by_cases hr : o.removeOk = true <;>
    by_cases ho : o.openOk = true <;>
    by_cases hw : o.writeOk = true <;>
    simp [hex, hr, ho, hw, FS.set, FS.erase] <;>
    (intro q hq
     simp [hq])

/-- C8 witness: `write_file_spec` on an empty filesystem with an all-success
oracle: the header file holds the banner followed by the content. -/
theorem write_file_spec_witness :
    (write_file 2025 (fun _ => none) "content" "esp_embed_tone.h" true
      ⟨true, true, true, 0⟩).2 "esp_embed_tone.h" = some (LICENSE_STR 2025 ++ "content") := by
  have h := (write_file_spec 2025 (fun _ => none) "content" "esp_embed_tone.h" true
      ⟨true, true, true, 0⟩).2.1 (by decide)
  simpa using h.1

/-- C9: two all-successful runs over the same scanned input with different
generation years write byte-identical artifacts except for the year embedded
in the header's license banner: both headers are one common core prefixed by
the banner of the respective year (the banner differing only in the
interpolated year), and the two manifests are identical. -/
theorem rerun_identical_up_to_banner_year (listing : List String)
    (getsize : String → Option Nat) (y1 y2 : Nat) (fs1 fs2 : FS)
    (hne : get_file_info listing getsize ≠ []) :
    ∃ hcore c,
      LICENSE_STR y1 = LICENSE_PRE ++ toString y1 ++ LICENSE_SUF ∧
      LICENSE_STR y2 = LICENSE_PRE ++ toString y2 ++ LICENSE_SUF ∧
      (run_main listing getsize y1 ⟨true, true, true, 0⟩ ⟨true, true, true, 0⟩ fs1).1 = 0 ∧
      (run_main listing getsize y2 ⟨true, true, true, 0⟩ ⟨true, true, true, 0⟩ fs2).1 = 0 ∧
      (run_main listing getsize y1 ⟨true, true, true, 0⟩ ⟨true, true, true, 0⟩ fs1).2
        GEN_HEAD_FILE_NAME = some (LICENSE_STR y1 ++ hcore) ∧
      (run_main listing getsize y2 ⟨true, true, true, 0⟩ ⟨true, true, true, 0⟩ fs2).2
        GEN_HEAD_FILE_NAME = some (LICENSE_STR y2 ++ hcore) ∧
      (run_main listing getsize y1 ⟨true, true, true, 0⟩ ⟨true, true, true, 0⟩ fs1).2
        GEN_CMAKE_FILE_NAME = some c ∧
      (run_main listing getsize y2 ⟨true, true, true, 0⟩ ⟨true, true, true, 0⟩ fs2).2
        GEN_CMAKE_FILE_NAME = some c := by
  obtain ⟨hc1, cc1, hgen1, e1, hh1, hm1⟩ := run_main_ok listing getsize y1 fs1 hne
  obtain ⟨hc2, cc2, hgen2, e2, hh2, hm2⟩ := run_main_ok listing getsize y2 fs2 hne
  have hpair : (hc1, cc1) = (hc2, cc2) := Option.some.inj (hgen1.symm.trans hgen2)
  have hhc : hc1 = hc2 := congrArg Prod.fst hpair
  have hcc : cc1 = cc2 := congrArg Prod.snd hpair
  subst hhc
  subst hcc
  exact ⟨hc1, cc1, rfl, rfl, e1, e2, hh1, hh2, hm1, hm2⟩

/-- C9 witness: `rerun_identical_up_to_banner_year` on a one-file directory,
run with years 2024 and 2025 from an empty filesystem. -/
theorem rerun_identical_witness :
    ∃ hcore c,
      LICENSE_STR 2024 = LICENSE_PRE ++ toString 2024 ++ LICENSE_SUF ∧
      LICENSE_STR 2025 = LICENSE_PRE ++ toString 2025 ++ LICENSE_SUF ∧
      (run_main ["a.wav"] (fun _ => some 3) 2024 ⟨true, true, true, 0⟩
        ⟨true, true, true, 0⟩ (fun _ => none)).1 = 0 ∧
      (run_main ["a.wav"] (fun _ => some 3) 2025 ⟨true, true, true, 0⟩
        ⟨true, true, true, 0⟩ (fun _ => none)).1 = 0 ∧
      (run_main ["a.wav"] (fun _ => some 3) 2024 ⟨true, true, true, 0⟩
        ⟨true, true, true, 0⟩ (fun _ => none)).2
        GEN_HEAD_FILE_NAME = some (LICENSE_STR 2024 ++ hcore) ∧
      (run_main ["a.wav"] (fun _ => some 3) 2025 ⟨true, true, true, 0⟩
        ⟨true, true, true, 0⟩ (fun _ => none)).2
        GEN_HEAD_FILE_NAME = some (LICENSE_STR 2025 ++ hcore) ∧
      (run_main ["a.wav"] (fun _ => some 3) 2024 ⟨true, true, true, 0⟩
        ⟨true, true, true, 0⟩ (fun _ => none)).2
        GEN_CMAKE_FILE_NAME = some c ∧
      (run_main ["a.wav"] (fun _ => some 3) 2025 ⟨true, true, true, 0⟩
        ⟨true, true, true, 0⟩ (fun _ => none)).2
        GEN_CMAKE_FILE_NAME = some c :=
  rerun_identical_up_to_banner_year ["a.wav"] (fun _ => some 3) 2024 2025
    (fun _ => none) (fun _ => none) (by decide)

end EmbedTone
